import Mathlib

/-!
Shallow embedding of the contig-coverage chimera-detection core
(`chimera_detection.py`, `visualize_chimeric_contigs.py`,
`generate_all_contigs_filtered.py`): the coverage store, the segmenter,
the chimera scorer, the screening driver and the filtered-visualization
sample filter, together with theorems checking the specification's claims
about them.
-/

attribute [local semireducible] Rat.mul Rat.inv Rat.add Rat.sub Rat.ofScientific

/-- A single coverage observation of one sample along a contig:
the dict of the loaded data holding a position and a coverage value. -/
structure CoveragePoint where
  position : Nat
  coverage : ℚ
deriving DecidableEq, Repr

/-- One sample's track of coverage points for a contig. -/
abbrev SampleTrack := List CoveragePoint

/-- Coverage data for one contig: the Python dict `contig_data`
(sample name to track), modelled as an association list in insertion order. -/
abbrev ContigCoverage := List (String × SampleTrack)

/-- All positions recorded across all samples of a contig (with multiplicity);
the scripts collect these into `all_positions`, a set used only for its
maximum and its cardinality. -/
def all_positions (cd : ContigCoverage) : List Nat :=
  cd.flatMap fun pr => pr.2.map CoveragePoint.position

/-- The contig length: `max(all_positions) if all_positions else 0`. -/
def contig_length (cd : ContigCoverage) : Nat :=
  (all_positions cd).foldr max 0

/-- The number of distinct recorded positions, `len(all_positions)` after the
set construction. -/
def distinct_position_count (cd : ContigCoverage) : Nat :=
  (all_positions cd).dedup.length

/-- The points of a track that fall in a segment: the loop condition
`seg_start <= point['position'] < seg_end` of all three segment loops. -/
def points_in_segment (track : SampleTrack) (seg_start seg_end : Nat) :
    SampleTrack :=
  track.filter fun pt =>
    decide (seg_start ≤ pt.position) && decide (pt.position < seg_end)

/-- Mean coverage of a list of points, `total_cov / positions_in_segment`
(only ever used on a nonempty list in the scripts). -/
def mean_cov (pts : SampleTrack) : ℚ :=
  (pts.map CoveragePoint.coverage).sum / pts.length

/-- One sample's candidacy in a segment: `some (sample, mean)` exactly when
the sample has at least one position in the segment and its mean clears
`min_coverage`; this is the `positions_in_segment > 0` /
`mean_cov >= min_coverage` branch of the source loops. -/
def sample_candidate (seg_start seg_end : Nat) (min_coverage : ℚ)
    (pr : String × SampleTrack) : Option (String × ℚ) :=
  let pts := points_in_segment pr.2 seg_start seg_end
  if 0 < pts.length then
    if min_coverage ≤ mean_cov pts then some (pr.1, mean_cov pts) else none
  else none

/-- The `segment_coverage` dict built for one segment, in sample order. -/
def segment_coverage (cd : ContigCoverage) (seg_start seg_end : Nat)
    (min_coverage : ℚ) : List (String × ℚ) :=
  cd.filterMap (sample_candidate seg_start seg_end min_coverage)

/-- Python's `max(items, key=lambda x: x[1])`: the first element whose value
is maximal (a later element replaces the current best only when strictly
greater). -/
def max_by_value : List (String × ℚ) → Option (String × ℚ)
  | [] => none
  | x :: xs => some (xs.foldl (fun best y => if best.2 < y.2 then y else best) x)

/-- The segment's leader, `max(segment_coverage.items(), key=...)[0]`, when
`segment_coverage` is nonempty. -/
def segment_leader (cd : ContigCoverage) (seg_start seg_end : Nat)
    (min_coverage : ℚ) : Option String :=
  (max_by_value (segment_coverage cd seg_start seg_end min_coverage)).map
    Prod.fst

/-- Start of segment `i`: `seg_start = seg_idx * segment_size`. -/
def seg_start_of (segment_size i : Nat) : Nat := i * segment_size

/-- End of segment `i`:
`(seg_idx + 1) * segment_size if seg_idx < num_segments - 1 else contig_length`. -/
def seg_end_of (num_segments len segment_size i : Nat) : Nat :=
  if i < num_segments - 1 then (i + 1) * segment_size else len

/-- Detailed-mode segment count:
`num_segments = min(10, len(all_positions) // 100)`, raised to `3` when the
result is below `3`. -/
def num_segments_detailed (cd : ContigCoverage) : Nat :=
  let n := min 10 (distinct_position_count cd / 100)
  if n < 3 then 3 else n

/-- The `segment_leaders` list of `analyze_coverage_distribution`: one entry
per segment, with `none` appended when no sample qualifies in the segment. -/
def segment_leaders_detailed (cd : ContigCoverage) (min_coverage : ℚ) :
    List (Option String) :=
  let n := num_segments_detailed cd
  let len := contig_length cd
  let size := len / n
  (List.range n).map fun i =>
    segment_leader cd (seg_start_of size i) (seg_end_of n len size i)
      min_coverage

/-- The `segment_leaders` list of `quick_chimera_scan` and
`identify_chimeric_contigs`: `leader[0]` is appended only when
`segment_coverage` is nonempty, so a leaderless segment adds no entry.
The screening threshold is the literal `5` and the segment count the
literal `5` of the source. -/
def segment_leaders_quick (cd : ContigCoverage) : List String :=
  let len := contig_length cd
  let size := len / 5
  (List.range 5).filterMap fun i =>
    segment_leader cd (seg_start_of size i) (seg_end_of 5 len size i) 5

/-- One screening-result row,
`(contig_name, chimera_score, unique_leaders, len(segment_leaders))`. -/
structure ScanResult where
  contig : String
  score : ℚ
  unique_leaders : Nat
  segments : Nat
deriving DecidableEq, Repr

/-- One iteration of the `quick_chimera_scan` loop over contigs: skip contigs
with `contig_length < 1000`, build `segment_leaders`, and when that list is
nonempty record the scored row with
`chimera_score = unique_leaders / len(segment_leaders)`;
`unique_leaders = len(set(...))` is the number of distinct entries. -/
def scan_contig (name : String) (cd : ContigCoverage) : Option ScanResult :=
  if contig_length cd < 1000 then none
  else
    let leaders := segment_leaders_quick cd
    let uniq := leaders.dedup.length
    if 0 < leaders.length then
      some ⟨name, (uniq : ℚ) / leaders.length, uniq, leaders.length⟩
    else none

/-- The unsorted screening results, one per scored contig in store order. -/
def screened_results (store : List (String × ContigCoverage)) :
    List ScanResult :=
  store.filterMap fun pr => scan_contig pr.1 pr.2

/-- `quick_chimera_scan`: score every contig and sort the rows by score,
highest first (`sort(key=lambda x: x[1], reverse=True)`). -/
def quick_chimera_scan (store : List (String × ContigCoverage)) :
    List ScanResult :=
  (screened_results store).mergeSort fun a b => decide (b.score ≤ a.score)

/-- `identify_chimeric_contigs`: the same screening loop, keeping only rows
with `chimera_score >= min_score`, returned sorted descending by score.
The source appends `(name, score, unique_leaders)`; the row here carries the
segment count too, which changes nothing the callers observe. -/
def identify_chimeric_contigs (store : List (String × ContigCoverage))
    (min_score : ℚ) : List ScanResult :=
  (store.filterMap fun pr =>
    match scan_contig pr.1 pr.2 with
    | some r => if min_score ≤ r.score then some r else none
    | none => none).mergeSort fun a b => decide (b.score ≤ a.score)

/-- The `sample_stats` list of `create_filtered_visualization`: samples with a
nonempty track whose mean coverage clears `min_mean_coverage`, as
`(sample, mean_cov, coverage_points)` triples in store order. -/
def sample_stats (contig_data : ContigCoverage) (min_mean_coverage : ℚ) :
    List (String × ℚ × SampleTrack) :=
  contig_data.filterMap fun pr =>
    if pr.2 = [] then none
    else if min_mean_coverage ≤ mean_cov pr.2 then
      some (pr.1, mean_cov pr.2, pr.2)
    else none

/-- `top_samples`: `sample_stats` sorted descending by mean coverage, cut to
the first `max_samples` entries. -/
def top_samples (contig_data : ContigCoverage) (min_mean_coverage : ℚ)
    (max_samples : Nat) : List (String × ℚ × SampleTrack) :=
  ((sample_stats contig_data min_mean_coverage).mergeSort
    fun a b => decide (b.2.1 ≤ a.2.1)).take max_samples

/-- The per-contig body of the filtering loop: the contig is kept, with its
top samples' tracks, exactly when `top_samples` is nonempty. -/
def filter_contig (contig_data : ContigCoverage) (min_mean_coverage : ℚ)
    (max_samples : Nat) : Option ContigCoverage :=
  let top := top_samples contig_data min_mean_coverage max_samples
  if top.length = 0 then none
  else some (top.map fun pr => (pr.1, pr.2.2))

/-- `create_filtered_visualization`'s `filtered_coverage_data`: the kept
contigs in `all_contigs` order, each with its filtered sample map; contigs
absent from the store or left with no samples are omitted. -/
def create_filtered_visualization (all_contigs : List String)
    (store : List (String × ContigCoverage)) (min_mean_coverage : ℚ)
    (max_samples : Nat) : List (String × ContigCoverage) :=
  all_contigs.filterMap fun contig =>
    match store.lookup contig with
    | none => none
    | some cd =>
      (filter_contig cd min_mean_coverage max_samples).map
        fun kept => (contig, kept)

/-- Number of the five screening segments that actually produce a leader. -/
def leader_segment_count (cd : ContigCoverage) : Nat :=
  ((List.range 5).filter fun i =>
    (segment_leader cd (seg_start_of (contig_length cd / 5) i)
      (seg_end_of 5 (contig_length cd) (contig_length cd / 5) i) 5).isSome).length

/-- A concrete contig: sample `A` covers only the first screening segment
(position `0`) and fixes the contig length at `1000` through a second point.
Only one of the five screening segments produces a leader. -/
def cdC1 : ContigCoverage := [("A", [⟨0, 100⟩, ⟨1000, 100⟩])]

/-- A concrete contig of length `1000` whose sample `A` has a point at
position `999` (inside the final screening segment) and a point at position
`1000`, the contig length itself. -/
def cdC2 : ContigCoverage := [("A", [⟨0, 100⟩, ⟨999, 7⟩, ⟨1000, 50⟩])]

/-- A concrete contig of length `1000` in which every sample stays below
every screening and detailed threshold in every segment. -/
def cdC3 : ContigCoverage := [("A", [⟨0, 1⟩, ⟨1000, 1⟩])]

/-- A one-contig coverage store around `cdC1`. -/
def storeC4 : List (String × ContigCoverage) := [("contig_1", cdC1)]

/-- Track of a sample with mean coverage `10`. -/
def trackA : SampleTrack := [⟨0, 10⟩]

/-- Track of a sample with mean coverage `3`. -/
def trackB : SampleTrack := [⟨0, 3⟩]

/-- Track of a sample with mean coverage `7`. -/
def trackC : SampleTrack := [⟨0, 7⟩]

/-- A concrete contig with three samples of means `10`, `3` and `7`. -/
def cdC10 : ContigCoverage := [("A", trackA), ("B", trackB), ("C", trackC)]

/-- A one-contig store around `cdC10`. -/
def storeC10 : List (String × ContigCoverage) := [("c1", cdC10)]

/-! ## Helper lemmas -/

/-- The running best of Python's `max` scan is one of the scanned elements. -/
theorem foldl_best_mem (xs : List (String × ℚ)) (x : String × ℚ) :
    xs.foldl (fun best y => if best.2 < y.2 then y else best) x ∈ x :: xs := by
  induction xs generalizing x with
  | nil => exact List.mem_singleton.2 rfl
  | cons y ys ih =>
    simp only [List.foldl_cons]
    rcases List.mem_cons.1 (ih (if x.2 < y.2 then y else x)) with h1 | h1
    · rw [h1]
      split_ifs
      · exact List.mem_cons_of_mem _ (List.mem_cons_self _ _)
      · exact List.mem_cons_self _ _
    · exact List.mem_cons_of_mem _ (List.mem_cons_of_mem _ h1)

/-- Python's `max` returns an element of the list. -/
theorem max_by_value_mem {l : List (String × ℚ)} {x : String × ℚ}
    (h : max_by_value l = some x) : x ∈ l := by
  match l with
  | [] => simp [max_by_value] at h
  | y :: ys =>
    have hx : x = ys.foldl (fun best z => if best.2 < z.2 then z else best) y := by
      simpa [max_by_value] using h.symm
    rw [hx]
    exact foldl_best_mem ys y

/-- A `filterMap` has as many entries as inputs on which the function fires. -/
theorem length_filterMap_eq_length_filter {α β : Type} (f : α → Option β)
    (l : List α) :
    (l.filterMap f).length = (l.filter fun a => (f a).isSome).length := by
  induction l with
  | nil => rfl
  | cons a l ih =>
    rw [List.filterMap_cons, List.filter_cons]
    cases hfa : f a with
    | none => simpa [hfa] using ih
    | some b => simpa [hfa] using ih

/-- Characterisation of a successful candidacy check: the sample has points in
the segment, the recorded value is the mean over exactly those points, and it
clears the threshold. -/
theorem sample_candidate_some {a b : Nat} {mc : ℚ} {pr : String × SampleTrack}
    {s : String} {m : ℚ} (h : sample_candidate a b mc pr = some (s, m)) :
    pr.1 = s ∧ 0 < (points_in_segment pr.2 a b).length ∧
      m = mean_cov (points_in_segment pr.2 a b) ∧ mc ≤ m := by
  simp only [sample_candidate] at h
  split_ifs at h with h1 h2
  · simp only [Option.some.injEq, Prod.mk.injEq] at h
    exact ⟨h.1, h1, h.2.symm, h.2 ▸ h2⟩

/-- A sample with no position inside the segment is never a candidate. -/
theorem sample_candidate_of_no_points {a b : Nat} {mc : ℚ}
    {pr : String × SampleTrack} (h : points_in_segment pr.2 a b = []) :
    sample_candidate a b mc pr = none := by
  unfold sample_candidate
  rw [h]
  simp

/-- If in a segment every sample with points stays below the threshold, the
`segment_coverage` dict for that segment is empty. -/
theorem segment_coverage_eq_nil {cd : ContigCoverage} {a b : Nat} {mc : ℚ}
    (h : ∀ pr ∈ cd, 0 < (points_in_segment pr.2 a b).length →
      mean_cov (points_in_segment pr.2 a b) < mc) :
    segment_coverage cd a b mc = [] := by
  unfold segment_coverage
  rw [List.filterMap_eq_nil_iff]
  intro pr hpr
  simp only [sample_candidate]
  split_ifs with h1 h2
  · exact absurd h2 (not_le.2 (h pr hpr h1))
  · rfl
  · rfl

/-- Characterisation of a produced screening row: the contig is long enough,
its leaders list is nonempty, and the row records the distinct-leader count,
the leaders-list length and their quotient. -/
theorem scan_contig_some {name : String} {cd : ContigCoverage} {r : ScanResult}
    (h : scan_contig name cd = some r) :
    1000 ≤ contig_length cd ∧ 0 < (segment_leaders_quick cd).length ∧
      r = ⟨name,
        ((segment_leaders_quick cd).dedup.length : ℚ) /
          ((segment_leaders_quick cd).length : ℚ),
        (segment_leaders_quick cd).dedup.length,
        (segment_leaders_quick cd).length⟩ := by
  simp only [scan_contig] at h
  split_ifs at h with h1 h2
  · refine ⟨not_lt.1 h1, h2, ?_⟩
    injection h with h
    exact h.symm

/-- A contig whose leaders list is empty is skipped by the quick scan. -/
theorem scan_contig_of_no_leaders {name : String} {cd : ContigCoverage}
    (h : segment_leaders_quick cd = []) : scan_contig name cd = none := by
  simp only [scan_contig]
  split_ifs with h1 h2
  · rfl
  · rw [h] at h2
    simp at h2
  · rfl

/-! ## Claim theorems -/

/-- C5: in detailed single-contig mode the number of segments equals the
clamp of `total_distinct_positions // 100` to the interval `[3, 10]`, and is
therefore always at least `3` and at most `10`, regardless of how many
distinct positions the contig has. -/
theorem spec2proof_C5 (cd : ContigCoverage) :
    num_segments_detailed cd =
      max 3 (min 10 (distinct_position_count cd / 100)) ∧
    3 ≤ num_segments_detailed cd ∧ num_segments_detailed cd ≤ 10 := by
  simp only [num_segments_detailed]
  split_ifs with h
  · omega
  · omega

/-- C6: a per-segment mean coverage is recorded for a sample only when the
sample has at least one position inside the segment range, and the recorded
value is the sum over exactly those positions divided by their (positive)
count; a sample with zero positions in the segment is excluded from
candidacy rather than treated as zero coverage. -/
theorem spec2proof_C6 (cd : ContigCoverage) (a b : Nat) (mc : ℚ)
    (sample : String) (m : ℚ) :
    ((sample, m) ∈ segment_coverage cd a b mc →
      ∃ track, (sample, track) ∈ cd ∧
        0 < (points_in_segment track a b).length ∧
        m = mean_cov (points_in_segment track a b) ∧ mc ≤ m) ∧
    (∀ pr : String × SampleTrack, points_in_segment pr.2 a b = [] →
      sample_candidate a b mc pr = none) := by
  constructor
  · intro h
    rcases List.mem_filterMap.1 h with ⟨pr, hpr, hc⟩
    rcases sample_candidate_some hc with ⟨h1, h2, h3, h4⟩
    exact ⟨pr.2, by rwa [← h1, Prod.mk.eta], h2, h3, h4⟩
  · exact fun pr h => sample_candidate_of_no_points h

/-- C6 witness: a concrete sample with points in the segment is recorded with
its exact mean, and a concrete sample with no point in the segment is
excluded. -/
theorem spec2proof_C6_witness :
    (∃ track, ("A", track) ∈ ([("A", [⟨0, 12⟩])] : ContigCoverage) ∧
      0 < (points_in_segment track 0 5).length ∧
      (12 : ℚ) = mean_cov (points_in_segment track 0 5) ∧ (5 : ℚ) ≤ 12) ∧
    sample_candidate 0 5 5 ("B", [⟨10, 50⟩]) = none :=
  ⟨(spec2proof_C6 [("A", [⟨0, 12⟩])] 0 5 5 "A" 12).1 (by decide),
   (spec2proof_C6 [("A", [⟨0, 12⟩])] 0 5 5 "A" 12).2 ("B", [⟨10, 50⟩])
     (by decide)⟩

/-- C7: the quick screening computes a ratio only for contigs whose
segment-leaders list is nonempty; a contig yielding zero entries is skipped
before the division, and every produced row's segment count is the positive
length of that list. -/
theorem spec2proof_C7 (name : String) (cd : ContigCoverage) :
    (segment_leaders_quick cd = [] → scan_contig name cd = none) ∧
    ∀ r, scan_contig name cd = some r →
      0 < (segment_leaders_quick cd).length ∧
      r.segments = (segment_leaders_quick cd).length := by
  constructor
  · exact scan_contig_of_no_leaders
  · intro r h
    rcases scan_contig_some h with ⟨h1, h2, h3⟩
    exact ⟨h2, by rw [h3]⟩

/-- C7 witness: a concrete contig with an empty segment-leaders list is
skipped by the quick scan. -/
theorem spec2proof_C7_witness : scan_contig "contig_3" cdC3 = none :=
  (spec2proof_C7 "contig_3" cdC3).1 (by decide)

/-- C4: every row of the quick screening has a score in `[0, 1]` that equals
the recorded distinct-leader count divided by the recorded segment count. -/
theorem spec2proof_C4 (store : List (String × ContigCoverage)) (r : ScanResult)
    (h : r ∈ quick_chimera_scan store) :
    0 ≤ r.score ∧ r.score ≤ 1 ∧
      r.score = (r.unique_leaders : ℚ) / (r.segments : ℚ) := by
  simp only [quick_chimera_scan, List.mem_mergeSort, screened_results] at h
  rcases List.mem_filterMap.1 h with ⟨pr, hpr, hsc⟩
  rcases scan_contig_some hsc with ⟨h1, h2, h3⟩
  subst h3
  refine ⟨div_nonneg (Nat.cast_nonneg _) (Nat.cast_nonneg _), ?_, rfl⟩
  rw [div_le_one (by exact_mod_cast h2)]
  exact_mod_cast List.Sublist.length_le (List.dedup_sublist _)

/-- C4 witness: the concrete store around `cdC1` yields the row with score
`1 = 1 / 1`, which satisfies the invariant. -/
theorem spec2proof_C4_witness :
    0 ≤ (ScanResult.mk "contig_1" 1 1 1).score ∧
    (ScanResult.mk "contig_1" 1 1 1).score ≤ 1 ∧
      (ScanResult.mk "contig_1" 1 1 1).score =
        ((ScanResult.mk "contig_1" 1 1 1).unique_leaders : ℚ) /
          ((ScanResult.mk "contig_1" 1 1 1).segments : ℚ) :=
  spec2proof_C4 storeC4 ⟨"contig_1", 1, 1, 1⟩
    (by
      simp only [quick_chimera_scan]
      exact List.mem_mergeSort.2 (by decide))

/-- C1 counterexample: in `cdC1` only one of the five screening segments has
a sample clearing the threshold, so the distinct non-none leader count is `1`
and the total segment count is `5`, yet the recorded score is `1`, not
`1 / 5`: the screening loop never appends a none entry, so leaderless
segments are absent from the denominator. -/
theorem spec2proof_C1_counterexample :
    segment_leaders_quick cdC1 = ["A"] ∧
    scan_contig "contig_1" cdC1 = some ⟨"contig_1", 1, 1, 1⟩ ∧
    (ScanResult.mk "contig_1" 1 1 1).score ≠ (1 : ℚ) / 5 := by
  refine ⟨by decide, by decide, by decide⟩

/-- C1 amended: the quick-screening chimera score equals the count of
distinct leaders divided by the number of segments that actually produce a
leader; segments where no sample clears the threshold contribute no
segment-leaders entry and are not counted in the denominator. -/
theorem spec2proof_C1 (name : String) (cd : ContigCoverage) (r : ScanResult)
    (h : scan_contig name cd = some r) :
    r.score = (r.unique_leaders : ℚ) / (leader_segment_count cd : ℚ) ∧
      r.unique_leaders = (segment_leaders_quick cd).dedup.length := by
  rcases scan_contig_some h with ⟨h1, h2, h3⟩
  have hlen : (segment_leaders_quick cd).length = leader_segment_count cd := by
    simp only [segment_leaders_quick, leader_segment_count]
    exact length_filterMap_eq_length_filter _ _
  subst h3
  exact ⟨by simp only; rw [hlen], rfl⟩

/-- C1 witness: for `cdC1` the amended denominator is the single
leader-producing segment, matching the recorded score `1`. -/
theorem spec2proof_C1_witness :
    (ScanResult.mk "contig_1" 1 1 1).score =
      ((ScanResult.mk "contig_1" 1 1 1).unique_leaders : ℚ) /
        (leader_segment_count cdC1 : ℚ) :=
  (spec2proof_C1 "contig_1" cdC1 ⟨"contig_1", 1, 1, 1⟩ (by decide)).1

/-- C2 counterexample: in `cdC2` the contig length is `1000` and sample `A`
has a point at position `1000`, but that point is excluded from the final
screening segment, whose mean for `A` is `7` (the position-`999` point
alone) rather than the `(7 + 50) / 2` an inclusive upper bound would give. -/
theorem spec2proof_C2_counterexample :
    contig_length cdC2 = 1000 ∧
    (⟨1000, 50⟩ : CoveragePoint) ∈
      ([⟨0, 100⟩, ⟨999, 7⟩, ⟨1000, 50⟩] : SampleTrack) ∧
    (⟨1000, 50⟩ : CoveragePoint) ∉
      points_in_segment [⟨0, 100⟩, ⟨999, 7⟩, ⟨1000, 50⟩]
        (seg_start_of (contig_length cdC2 / 5) 4)
        (seg_end_of 5 (contig_length cdC2) (contig_length cdC2 / 5) 4) ∧
    segment_coverage cdC2 (seg_start_of (contig_length cdC2 / 5) 4)
      (seg_end_of 5 (contig_length cdC2) (contig_length cdC2 / 5) 4) 5 =
      [("A", 7)] := by
  refine ⟨by decide, by decide, by decide, by decide⟩

/-- C2 amended: every segment, the final one included, selects points by the
half-open test `seg_start <= position < seg_end`; the final segment's upper
bound is `contig_length` but remains exclusive, so a coverage point at
position equal to `contig_length` is counted in no segment, while every
non-final segment spans `[ i * segment_size, (i + 1) * segment_size)`. -/
theorem spec2proof_C2 (track : SampleTrack) (n len size i : Nat)
    (hsize : size = len / n) (hi : i < n) (pt : CoveragePoint) :
    (pt ∈ points_in_segment track (seg_start_of size i)
        (seg_end_of n len size i) ↔
      pt ∈ track ∧ seg_start_of size i ≤ pt.position ∧
        pt.position < seg_end_of n len size i) ∧
    (pt.position = len →
      pt ∉ points_in_segment track (seg_start_of size i)
        (seg_end_of n len size i)) ∧
    (i < n - 1 → seg_end_of n len size i = (i + 1) * size) := by
  have hend : seg_end_of n len size i ≤ len := by
    simp only [seg_end_of]
    split_ifs with hc
    · calc (i + 1) * size ≤ n * size := Nat.mul_le_mul_right _ (by omega)
        _ = size * n := Nat.mul_comm _ _
        _ ≤ len := by rw [hsize]; exact Nat.div_mul_le_self len n
    · exact le_refl len
  refine ⟨?_, ?_, ?_⟩
  · simp [points_in_segment, List.mem_filter, and_assoc]
  · intro hp hmem
    simp only [points_in_segment, List.mem_filter, Bool.and_eq_true,
      decide_eq_true_eq] at hmem
    omega
  · intro hc
    simp [seg_end_of, hc]

/-- C2 witness: with segment size `200 = 1000 / 5` and the final segment
index `4`, a concrete point at position `1000` (the contig length) is not in
the final segment. -/
theorem spec2proof_C2_witness :
    (⟨1000, 3⟩ : CoveragePoint) ∉
      points_in_segment [⟨0, 1⟩, ⟨1000, 3⟩] (seg_start_of 200 4)
        (seg_end_of 5 1000 200 4) :=
  (spec2proof_C2 [⟨0, 1⟩, ⟨1000, 3⟩] 5 1000 200 4 (by decide) (by decide)
    ⟨1000, 3⟩).2.1 rfl

/-- A segment with an empty `segment_coverage` dict has no leader. -/
theorem segment_leader_of_nil {cd : ContigCoverage} {a b : Nat} {mc : ℚ}
    (h : segment_coverage cd a b mc = []) :
    segment_leader cd a b mc = none := by
  simp [segment_leader, h, max_by_value]

/-- C3 counterexample: `cdC3` has contig length `1000` and no sample clearing
the screening threshold in any of the five segments, yet its screening
segment-leaders list is empty rather than five none entries, and the contig
is skipped without receiving any score, rather than receiving score `0`. -/
theorem spec2proof_C3_counterexample :
    1000 ≤ contig_length cdC3 ∧
    ((List.range 5).all fun i =>
      (segment_coverage cdC3 (seg_start_of (contig_length cdC3 / 5) i)
        (seg_end_of 5 (contig_length cdC3) (contig_length cdC3 / 5) i)
        5).isEmpty) = true ∧
    segment_leaders_quick cdC3 = [] ∧
    scan_contig "contig_3" cdC3 = none := by
  refine ⟨by decide, by decide, by decide, by decide⟩

/-- C3 amended: a contig in which every sample's mean coverage is below the
threshold in every segment yields, in detailed mode, a segment-leaders
sequence that is all none with unique leader count `0`; in screening mode
its segment-leaders list is empty and the contig is skipped without
receiving any score. -/
theorem spec2proof_C3 (name : String) (cd : ContigCoverage) (mc : ℚ)
    (hquick : ∀ i, i < 5 → ∀ pr ∈ cd,
      0 < (points_in_segment pr.2 (seg_start_of (contig_length cd / 5) i)
        (seg_end_of 5 (contig_length cd) (contig_length cd / 5) i)).length →
      mean_cov (points_in_segment pr.2 (seg_start_of (contig_length cd / 5) i)
        (seg_end_of 5 (contig_length cd) (contig_length cd / 5) i)) < 5)
    (hdet : ∀ i, i < num_segments_detailed cd → ∀ pr ∈ cd,
      0 < (points_in_segment pr.2
        (seg_start_of (contig_length cd / num_segments_detailed cd) i)
        (seg_end_of (num_segments_detailed cd) (contig_length cd)
          (contig_length cd / num_segments_detailed cd) i)).length →
      mean_cov (points_in_segment pr.2
        (seg_start_of (contig_length cd / num_segments_detailed cd) i)
        (seg_end_of (num_segments_detailed cd) (contig_length cd)
          (contig_length cd / num_segments_detailed cd) i)) < mc) :
    segment_leaders_detailed cd mc =
      List.replicate (num_segments_detailed cd) (none : Option String) ∧
    ((segment_leaders_detailed cd mc).filterMap id).dedup.length = 0 ∧
    segment_leaders_quick cd = [] ∧ scan_contig name cd = none := by
  have hdetail : segment_leaders_detailed cd mc =
      List.replicate (num_segments_detailed cd) (none : Option String) := by
    simp only [segment_leaders_detailed]
    rw [List.eq_replicate_iff]
    refine ⟨by simp, ?_⟩
    intro b hb
    rcases List.mem_map.1 hb with ⟨i, hi, hbi⟩
    rw [← hbi]
    exact segment_leader_of_nil
      (segment_coverage_eq_nil (hdet i (List.mem_range.1 hi)))
  have hq : segment_leaders_quick cd = [] := by
    simp only [segment_leaders_quick]
    rw [List.filterMap_eq_nil_iff]
    intro i hi
    exact segment_leader_of_nil
      (segment_coverage_eq_nil (hquick i (List.mem_range.1 hi)))
  refine ⟨hdetail, ?_, hq, scan_contig_of_no_leaders hq⟩
  have hnil : (List.replicate (num_segments_detailed cd)
      (none : Option String)).filterMap id = [] := by
    rw [List.filterMap_eq_nil_iff]
    intro a ha
    rw [List.eq_of_mem_replicate ha]
    rfl
  rw [hdetail, hnil]
  rfl

/-- C3 witness: for the concrete all-below-threshold contig `cdC3` (with
detailed threshold `10`), the amended behaviour holds: three none leaders in
detailed mode, an empty leaders list and no score row in screening mode. -/
theorem spec2proof_C3_witness :
    segment_leaders_detailed cdC3 10 =
      List.replicate (num_segments_detailed cdC3) (none : Option String) ∧
    ((segment_leaders_detailed cdC3 10).filterMap id).dedup.length = 0 ∧
    segment_leaders_quick cdC3 = [] ∧ scan_contig "contig_3" cdC3 = none :=
  spec2proof_C3 "contig_3" cdC3 10 (by decide) (by decide)

/-- The threshold filter of `identify_chimeric_contigs` distributes over the
screening loop: filtering inside the loop equals filtering the unsorted
screening rows. -/
theorem filterMap_scan_filter_eq (store : List (String × ContigCoverage))
    (t : ℚ) :
    (store.filterMap fun pr =>
      match scan_contig pr.1 pr.2 with
      | some r => if t ≤ r.score then some r else none
      | none => none) =
      (screened_results store).filter fun r => decide (t ≤ r.score) := by
  induction store with
  | nil => rfl
  | cons p l ih =>
    simp only [screened_results, List.filterMap_cons] at *
    cases hp : scan_contig p.1 p.2 with
    | none => simpa using ih
    | some r =>
      by_cases ht : t ≤ r.score
      · simp [ht, List.filter_cons, ih]
      · simp [ht, List.filter_cons, ih]

/-- C8: chimeric-subset extraction returns exactly the screened rows whose
score clears the threshold (as a permutation of the filtered screening
rows), and the returned list is sorted in descending score order: every
element's score is at least the next element's. -/
theorem spec2proof_C8 (store : List (String × ContigCoverage)) (t : ℚ) :
    (identify_chimeric_contigs store t).Perm
      ((screened_results store).filter fun r => decide (t ≤ r.score)) ∧
    (identify_chimeric_contigs store t).Pairwise
      fun a b => b.score ≤ a.score := by
  constructor
  · rw [identify_chimeric_contigs, filterMap_scan_filter_eq]
    exact List.mergeSort_perm _ _
  · have h := @List.sorted_mergeSort ScanResult
      (fun a b : ScanResult => decide (b.score ≤ a.score))
      (fun a b c hab hbc => by
        simp only [decide_eq_true_eq] at *
        exact le_trans hbc hab)
      (fun a b => by
        simp only [Bool.or_eq_true, decide_eq_true_eq]
        exact le_total b.score a.score)
      (store.filterMap fun pr =>
        match scan_contig pr.1 pr.2 with
        | some r => if t ≤ r.score then some r else none
        | none => none)
    rw [identify_chimeric_contigs]
    exact h.imp fun hab => of_decide_eq_true hab

/-- C9: every entry of the quick-screening segment-leaders list is the actual
leader of one of the five segments (so no none entry ever appears in the
list), and consequently every contig that receives a score, in the quick
scan or in chimeric-subset extraction, has a distinct-leader count of at
least `1` and a strictly positive score. -/
theorem spec2proof_C9 (store : List (String × ContigCoverage)) (name : String)
    (cd : ContigCoverage) (t : ℚ) :
    (∀ l ∈ segment_leaders_quick cd, ∃ i ∈ List.range 5,
      segment_leader cd (seg_start_of (contig_length cd / 5) i)
        (seg_end_of 5 (contig_length cd) (contig_length cd / 5) i) 5 =
        some l) ∧
    (∀ r, scan_contig name cd = some r →
      1 ≤ r.unique_leaders ∧ 0 < r.score) ∧
    (∀ r ∈ identify_chimeric_contigs store t,
      1 ≤ r.unique_leaders ∧ 0 < r.score) := by
  have key : ∀ (nm : String) (c : ContigCoverage) (r : ScanResult),
      scan_contig nm c = some r → 1 ≤ r.unique_leaders ∧ 0 < r.score := by
    intro nm c r h
    rcases scan_contig_some h with ⟨h1, h2, h3⟩
    have hne : segment_leaders_quick c ≠ [] := by
      intro hnil
      rw [hnil] at h2
      simp at h2
    have hd1 : 0 < (segment_leaders_quick c).dedup.length :=
      List.length_pos.2 fun hnil => hne ((List.dedup_eq_nil _).1 hnil)
    subst h3
    exact ⟨hd1, div_pos (by exact_mod_cast hd1) (by exact_mod_cast h2)⟩
  refine ⟨?_, key name cd, ?_⟩
  · intro l hl
    simp only [segment_leaders_quick] at hl
    exact List.mem_filterMap.1 hl
  · intro r hr
    simp only [identify_chimeric_contigs, List.mem_mergeSort] at hr
    rcases List.mem_filterMap.1 hr with ⟨pr, hpr, hf⟩
    cases hsc : scan_contig pr.1 pr.2 with
    | none =>
      rw [hsc] at hf
      exact Option.noConfusion hf
    | some r2 =>
      rw [hsc] at hf
      have hf2 : (if t ≤ r2.score then some r2 else none) = some r := hf
      split_ifs at hf2 with ht
      injection hf2 with hf2
      exact hf2 ▸ key pr.1 pr.2 r2 hsc

/-- C9 witness: the row produced for `cdC1` has one distinct leader and the
strictly positive score `1`. -/
theorem spec2proof_C9_witness :
    1 ≤ (ScanResult.mk "contig_1" 1 1 1).unique_leaders ∧
      0 < (ScanResult.mk "contig_1" 1 1 1).score :=
  (spec2proof_C9 [] "contig_1" cdC1 0).2.1 ⟨"contig_1", 1, 1, 1⟩ (by decide)

/-- Characterisation of a `sample_stats` entry: a nonempty track, the exact
mean as recorded value, the threshold cleared, and origin in the store. -/
theorem sample_stats_mem {cdIn : ContigCoverage} {mm : ℚ}
    {q : String × ℚ × SampleTrack} (h : q ∈ sample_stats cdIn mm) :
    q.2.2 ≠ [] ∧ q.2.1 = mean_cov q.2.2 ∧ mm ≤ q.2.1 ∧
      (q.1, q.2.2) ∈ cdIn := by
  rcases List.mem_filterMap.1 h with ⟨pr, hpr, hf⟩
  split_ifs at hf with h1 h2
  · injection hf with hf
    rw [← hf]
    exact ⟨h1, rfl, h2, by rw [Prod.mk.eta]; exact hpr⟩

/-- The kept sample map of `filter_contig` is the top-samples list stripped
of its mean column. -/
theorem filter_contig_some {cdIn : ContigCoverage} {mm : ℚ} {ms : Nat}
    {kept : ContigCoverage} (h : filter_contig cdIn mm ms = some kept) :
    kept = (top_samples cdIn mm ms).map fun pr => (pr.1, pr.2.2) := by
  simp only [filter_contig] at h
  split_ifs at h with h1
  · injection h with h
    exact h.symm

/-- Every top sample is a qualifying sample. -/
theorem top_samples_subset {cdIn : ContigCoverage} {mm : ℚ} {ms : Nat}
    {x : String × ℚ × SampleTrack} (h : x ∈ top_samples cdIn mm ms) :
    x ∈ sample_stats cdIn mm := by
  simp only [top_samples] at h
  exact List.mem_mergeSort.1 ((List.take_sublist _ _).subset h)

/-- A qualifying sample left out of the top samples has mean coverage no
greater than any retained sample's mean. -/
theorem top_samples_ge {cdIn : ContigCoverage} {mm : ℚ} {ms : Nat}
    {x q : String × ℚ × SampleTrack} (hx : x ∈ top_samples cdIn mm ms)
    (hq : q ∈ sample_stats cdIn mm) (hqn : q ∉ top_samples cdIn mm ms) :
    q.2.1 ≤ x.2.1 := by
  have hsort : ((sample_stats cdIn mm).mergeSort
      fun a b => decide (b.2.1 ≤ a.2.1)).Pairwise
      fun a b => decide (b.2.1 ≤ a.2.1) :=
    List.sorted_mergeSort
      (fun a b c hab hbc => by
        simp only [decide_eq_true_eq] at *
        exact le_trans hbc hab)
      (fun a b => by
        simp only [Bool.or_eq_true, decide_eq_true_eq]
        exact le_total b.2.1 a.2.1) _
  have htops : top_samples cdIn mm ms =
      ((sample_stats cdIn mm).mergeSort
        fun a b => decide (b.2.1 ≤ a.2.1)).take ms := rfl
  rw [htops] at hx hqn
  have hq2 : q ∈ ((sample_stats cdIn mm).mergeSort
      fun a b => decide (b.2.1 ≤ a.2.1)).drop ms := by
    have hq1 : q ∈ ((sample_stats cdIn mm).mergeSort
        fun a b => decide (b.2.1 ≤ a.2.1)).take ms ++
        ((sample_stats cdIn mm).mergeSort
          fun a b => decide (b.2.1 ≤ a.2.1)).drop ms := by
      rw [List.take_append_drop]
      exact List.mem_mergeSort.2 hq
    rcases List.mem_append.1 hq1 with h | h
    · exact absurd h hqn
    · exact h
  have hsort2 : (((sample_stats cdIn mm).mergeSort
      fun a b => decide (b.2.1 ≤ a.2.1)).take ms ++
      ((sample_stats cdIn mm).mergeSort
        fun a b => decide (b.2.1 ≤ a.2.1)).drop ms).Pairwise
      fun a b => decide (b.2.1 ≤ a.2.1) := by
    rw [List.take_append_drop]
    exact hsort
  exact of_decide_eq_true ((List.pairwise_append.1 hsort2).2.2 x hx q hq2)

/-- A contig kept by the visualization filter decomposes into a store entry
and a successful `filter_contig` call. -/
theorem create_filtered_mem {all_contigs : List String}
    {store : List (String × ContigCoverage)} {mm : ℚ} {ms : Nat}
    {contig : String} {cd : ContigCoverage}
    (h : (contig, cd) ∈ create_filtered_visualization all_contigs store mm ms) :
    ∃ cdIn, store.lookup contig = some cdIn ∧
      filter_contig cdIn mm ms = some cd := by
  rcases List.mem_filterMap.1 h with ⟨c, hc, hf⟩
  cases hl : store.lookup c with
  | none =>
    rw [hl] at hf
    exact Option.noConfusion hf
  | some cdIn =>
    rw [hl] at hf
    have hf2 : (filter_contig cdIn mm ms).map (fun kept => (c, kept)) =
        some (contig, cd) := hf
    cases hfc : filter_contig cdIn mm ms with
    | none =>
      rw [hfc] at hf2
      exact Option.noConfusion hf2
    | some kept =>
      rw [hfc] at hf2
      have hf3 : some (c, kept) = some (contig, cd) := hf2
      injection hf3 with hf3
      have hc2 : c = contig := congrArg Prod.fst hf3
      have hk : kept = cd := congrArg Prod.snd hf3
      exact ⟨cdIn, hc2 ▸ hl, hk ▸ hfc⟩

/-- C10: every contig kept by the filtered all-contigs visualization retains
at most `max_samples` samples, each retained sample has a nonempty track
whose mean coverage clears `min_mean_coverage`, the retained samples are top
ones by mean coverage (no qualifying sample left out beats a retained one),
and a contig whose store entry has no qualifying sample is omitted from the
output entirely. -/
theorem spec2proof_C10 (all_contigs : List String)
    (store : List (String × ContigCoverage)) (mm : ℚ) (ms : Nat)
    (contig : String) (cd : ContigCoverage) :
    ((contig, cd) ∈ create_filtered_visualization all_contigs store mm ms →
      cd.length ≤ ms ∧
      (∀ pr ∈ cd, pr.2 ≠ [] ∧ mm ≤ mean_cov pr.2) ∧
      ∃ cdIn, store.lookup contig = some cdIn ∧
        ∀ pr ∈ cd, ∀ q ∈ sample_stats cdIn mm,
          q ∉ top_samples cdIn mm ms → q.2.1 ≤ mean_cov pr.2) ∧
    (∀ cdIn, store.lookup contig = some cdIn → sample_stats cdIn mm = [] →
      (contig, cd) ∉ create_filtered_visualization all_contigs store mm ms) := by
  constructor
  · intro h
    rcases create_filtered_mem h with ⟨cdIn, hl, hfc⟩
    have hkept := filter_contig_some hfc
    refine ⟨?_, ?_, cdIn, hl, ?_⟩
    · rw [hkept, List.length_map]
      simp only [top_samples]
      rw [List.length_take]
      exact Nat.min_le_left _ _
    · intro pr hpr
      rw [hkept] at hpr
      rcases List.mem_map.1 hpr with ⟨x, hx, hxe⟩
      have hst := sample_stats_mem (top_samples_subset hx)
      rw [← hxe]
      exact ⟨hst.1, by rw [← hst.2.1]; exact hst.2.2.1⟩
    · intro pr hpr q hq hqn
      rw [hkept] at hpr
      rcases List.mem_map.1 hpr with ⟨x, hx, hxe⟩
      have hst := sample_stats_mem (top_samples_subset hx)
      rw [← hxe]
      calc q.2.1 ≤ x.2.1 := top_samples_ge hx hq hqn
        _ = mean_cov x.2.2 := hst.2.1
  · intro cdIn hl hempty h
    rcases create_filtered_mem h with ⟨cdIn2, hl2, hfc⟩
    rw [hl] at hl2
    injection hl2 with hl2
    rw [← hl2] at hfc
    have htop : top_samples cdIn mm ms = [] := by
      simp only [top_samples, hempty, List.mergeSort_nil, List.take_nil]
    simp [filter_contig, htop] at hfc

/-- C10 witness: with threshold `5` and sample cap `1`, the concrete contig
`cdC10` is kept with exactly its best sample, and the kept sample map
respects the cap. -/
theorem spec2proof_C10_witness :
    ([("A", trackA)] : ContigCoverage).length ≤ 1 := by
  have hstats : sample_stats cdC10 5 = [("A", 10, trackA), ("C", 7, trackC)] :=
    by decide
  have hms : (sample_stats cdC10 5).mergeSort
      (fun a b => decide (b.2.1 ≤ a.2.1)) =
      [("A", 10, trackA), ("C", 7, trackC)] := by
    rw [hstats]
    exact List.mergeSort_of_sorted (by decide)
  have htop : top_samples cdC10 5 1 = [("A", 10, trackA)] := by
    simp only [top_samples]
    rw [hms]
    rfl
  have hfc : filter_contig cdC10 5 1 = some [("A", trackA)] := by
    simp only [filter_contig]
    rw [htop]
    rfl
  have hlk : storeC10.lookup "c1" = some cdC10 := by decide
  have hmem : ("c1", ([("A", trackA)] : ContigCoverage)) ∈
      create_filtered_visualization ["c1"] storeC10 5 1 := by
    simp [create_filtered_visualization, hlk, hfc]
  exact ((spec2proof_C10 ["c1"] storeC10 5 1 "c1" [("A", trackA)]).1 hmem).1
